import Mathlib

/-!
Verification of the storage-and-metrics pipeline of the crypto market
analytics repository (`src/database.py`) against its natural-language
specification.

The embedding is a shallow one:

* SQLite tables become Lean lists of rows inside a `Store` structure; the
  `UNIQUE(asset_id, date)` constraints of the schema become a key-nodup
  check inside `bulkInsert`.
* pandas columns of floats become lists of exact rationals (`ℚ`); a
  pandas `NaN` entry becomes `Option.none`.  A division whose denominator
  is the rational `0` is represented as `none` (pandas produces `NaN` for
  `0/0`; the claims under study only concern that case and the
  all-positive case, never a `x/0` infinity).
* `rolling(window=w).std()` needs at least `w` non-`NaN` values inside the
  trailing `w`-row window, otherwise it yields `NaN`; `windowVals` mirrors
  this.  Because a standard deviation is an irrational square root, the
  `volatility_7d` / `volatility_30d` fields of a stored `MetricRow` carry
  the rolling *sample variance* (the square of the standard deviation,
  ddof = 1 exactly as pandas' default); `sampleStd` recovers the actual
  standard deviation as the real square root of that rational.
* Sorting (SQL `ORDER BY crypto_id, date` and pandas
  `sort_values("date")`) is embedded with the structurally recursive
  `List.insertionSort`, which produces the same sorted sequence on the
  duplicate-free keys the pipeline feeds it.
* Fallible stages return `Except Err _`; reading a missing / malformed
  CSV is the `none` input case, a duplicate key reaching an insert is
  `Err.constraintViolation`.
-/

/-- One row of the `cryptocurrencies` table (and equally one record of the
collector's `crypto_info.csv` after the column renaming in
`import_cryptocurrencies`). -/
structure CryptoRow where
  crypto_id : String
  symbol : String
  name : String
deriving DecidableEq, Repr

/-- One row of the `price_history` table (and equally one record of
`price_history.csv` after the column renaming in `import_price_history`;
the rename and the `to_datetime` normalisation are identities in the
model, dates being abstracted as naturals that order like calendar
dates). -/
structure PriceRow where
  crypto_id : String
  date : Nat
  price_usd : ℚ
  market_cap : ℚ
  total_volume : ℚ
deriving DecidableEq, Repr

/-- One row of the `metrics` table.  `daily_return` is always present in a
stored row (rows with an undefined return are skipped before insertion);
the other derived fields are nullable.  The two volatility fields store
the rolling sample variance — the square of the standard deviation the
Python code stores — because the square root of a rational is not a
rational; see `sampleStd`. -/
structure MetricRow where
  crypto_id : String
  date : Nat
  daily_return : ℚ
  volatility_7d : Option ℚ
  volatility_30d : Option ℚ
  volume_change_24h : Option ℚ
deriving DecidableEq, Repr

/-- The persistent state: the three tables of the SQLite database. -/
structure Store where
  cryptocurrencies : List CryptoRow
  price_history : List PriceRow
  metrics : List MetricRow
deriving DecidableEq, Repr

/-- Error taxonomy of the pipeline: a missing/malformed raw input, or a
duplicate `(asset_id, date)` key reaching a uniqueness-constrained
insert. -/
inductive Err where
  | inputError
  | constraintViolation
deriving DecidableEq, Repr

/-- Modelled from the spec: `sql/schema.sql` is not part of `src/`; per
§4.1/§6 of the spec it creates the three tables (with the composite
uniqueness constraints) and the read-only view, inserting no rows, so a
freshly initialised store has three empty tables. -/
def initStore : Store := ⟨[], [], []⟩

/-- `create_database` (`src/database.py:18-43`): removes any existing
database file and re-runs the schema, so whatever the prior store state
was, the result is the fresh empty store. -/
def create_database (prior : Store) : Store := initStore

/-- The deduplication key of an observation row: `(crypto_id, date)`. -/
def obsKey (r : PriceRow) : String × Nat := (r.crypto_id, r.date)

/-- The uniqueness key of a metric row: `(crypto_id, date)`. -/
def metricKey (r : MetricRow) : String × Nat := (r.crypto_id, r.date)

/-- pandas `drop_duplicates(subset=key, keep="last")`: a row survives
exactly when no later row carries the same key; surviving rows keep their
relative input order. -/
def dedupLast {α κ : Type} [DecidableEq κ] (key : α → κ) : List α → List α
  | [] => []
  | r :: rest =>
    if rest.any (fun x => decide (key x = key r)) then dedupLast key rest
    else r :: dedupLast key rest

/-- `DataFrame.to_sql(..., if_exists="append")` against a table whose
schema carries a uniqueness constraint on `key`: the rows are appended,
and a duplicate key anywhere in the resulting table raises a constraint
violation (modelling SQLite's `IntegrityError`). -/
def bulkInsert {α κ : Type} [DecidableEq κ] (key : α → κ) (tbl rows : List α) :
    Except Err (List α) :=
  if ((tbl ++ rows).map key).Nodup then .ok (tbl ++ rows) else .error .constraintViolation

/-- `import_cryptocurrencies` (`src/database.py:46-66`): read the metadata
CSV (a missing/unreadable file is the `none` case and aborts the stage),
rename columns, append into the `cryptocurrencies` table. -/
def import_cryptocurrencies (input : Option (List CryptoRow)) (s : Store) :
    Except Err Store :=
  match input with
  | none => .error .inputError
  | some df =>
    (bulkInsert (fun r => r.crypto_id) s.cryptocurrencies df).map
      (fun t => { s with cryptocurrencies := t })

/-- `import_price_history` (`src/database.py:69-97`): read the raw price
CSV, rename columns, drop duplicate `(crypto_id, date)` keys keeping the
last occurrence, and append the surviving rows — in their input order,
no sorting happens — into the `price_history` table.  The function
returns the inserted frame alongside the store, as the Python function
returns `df_insert`. -/
def import_price_history (input : Option (List PriceRow)) (s : Store) :
    Except Err (Store × List PriceRow) :=
  match input with
  | none => .error .inputError
  | some df =>
    (bulkInsert obsKey s.price_history (dedupLast obsKey df)).map
      (fun t => ({ s with price_history := t }, dedupLast obsKey df))

/-- pandas `Series.pct_change() * 100` on an exact-rational column: the
first entry is `NaN` (`none`), entry `i ≥ 1` is
`(x[i] - x[i-1]) / x[i-1] * 100`, undefined when the previous value is
the rational zero (pandas' float `0/0` NaN case). -/
def pct_change : List ℚ → List (Option ℚ)
  | [] => []
  | x :: rest =>
    none :: List.zipWith
      (fun prev cur => if prev = 0 then none else some ((cur - prev) / prev * 100))
      (x :: rest) rest

/-- The total (all-denominators-nonzero) value of `pct_change`: the list of
defined percentage changes, one per consecutive pair. -/
def pcVals : List ℚ → List ℚ
  | [] => []
  | x :: rest =>
    List.zipWith (fun prev cur => (cur - prev) / prev * 100) (x :: rest) rest

/-- Collapse a window of nullable values: `some` of the values when every
entry is present, `none` as soon as one entry is `NaN`. -/
def allSome : List (Option ℚ) → Option (List ℚ)
  | [] => some []
  | none :: _ => none
  | some x :: rest => (allSome rest).map (fun l => x :: l)

/-- The trailing `w`-row window of a column at row `i` (positions
`i-w+1 … i`), available only when `i+1 ≥ w` rows exist and every entry in
the window is non-`NaN` — exactly when pandas
`rolling(window=w)` (with its default `min_periods = w`) produces a
value at row `i`. -/
def windowVals (w : Nat) (xs : List (Option ℚ)) (i : Nat) : Option (List ℚ) :=
  if w ≤ i + 1 then allSome ((xs.take (i + 1)).drop (i + 1 - w)) else none

/-- The sample variance (pandas' default `ddof = 1`) of a window: the sum
of squared deviations from the mean divided by `n - 1`.  The Python code
stores its square root; see `sampleStd`. -/
def sampleVar (l : List ℚ) : ℚ :=
  ((l.map (fun x => (x - l.sum / l.length) ^ 2)).sum) / ((l.length : ℚ) - 1)

/-- The sample standard deviation of a window, as computed by pandas
`rolling(...).std()`: the real square root of the sample variance. -/
noncomputable def sampleStd (l : List ℚ) : ℝ :=
  Real.sqrt (sampleVar l)

/-- `rolling(window=w).std()` at row `i`, carried as the sample variance
(its square) so the pipeline stays inside the rationals. -/
def rollingVar (w : Nat) (xs : List (Option ℚ)) (i : Nat) : Option ℚ :=
  (windowVals w xs i).map sampleVar

/-- A placeholder row for out-of-range `getD` lookups (never reached on
the in-range indices the pipeline uses). -/
def defaultPriceRow : PriceRow := ⟨"", 0, 0, 0, 0⟩

/-- A placeholder metric row for out-of-range `getD` lookups. -/
def defaultMetricRow : MetricRow := ⟨"", 0, 0, none, none, none⟩

/-- `df_crypto.sort_values("date")`: sort one asset's observation rows by
date ascending. -/
def sortByDate (rows : List PriceRow) : List PriceRow :=
  List.insertionSort (fun a b => a.date ≤ b.date) rows

/-- `ORDER BY crypto_id, date`: sort the whole observation table by the
composite key. -/
def sortByKey (rows : List PriceRow) : List PriceRow :=
  List.insertionSort
    (fun a b => a.crypto_id < b.crypto_id ∨ (a.crypto_id = b.crypto_id ∧ a.date ≤ b.date))
    rows

/-- The metric row built (inside the row loop of `calculate_metrics`) at
row position `i` of one asset's date-sorted frame, given the already
computed `daily_return` and `volume_change_24h` columns and the defined
return `r` at `i`. -/
def mkMetricRow (sorted : List PriceRow) (rets vch : List (Option ℚ)) (i : Nat) (r : ℚ) :
    MetricRow :=
  { crypto_id := (sorted.getD i defaultPriceRow).crypto_id
    date := (sorted.getD i defaultPriceRow).date
    daily_return := r
    volatility_7d := rollingVar 7 rets i
    volatility_30d := rollingVar 30 rets i
    volume_change_24h := vch.getD i none }

/-- The per-asset metric computation of `calculate_metrics`
(`src/database.py:117-143`) applied to an already date-sorted frame:
compute the `daily_return` column by `pct_change`, the two rolling
volatilities over that column, the `volume_change_24h` column, then walk
the rows and keep exactly those whose `daily_return` is not `NaN`. -/
def assetMetricsSorted (sorted : List PriceRow) : List MetricRow :=
  (List.range sorted.length).filterMap (fun i =>
    match (pct_change (sorted.map (fun r => r.price_usd))).getD i none with
    | none => none
    | some r =>
      some (mkMetricRow sorted (pct_change (sorted.map (fun r => r.price_usd)))
        (pct_change (sorted.map (fun r => r.total_volume))) i r))

/-- The per-asset metric computation including the `sort_values("date")`
step. -/
def assetMetrics (rows : List PriceRow) : List MetricRow :=
  assetMetricsSorted (sortByDate rows)

/-- `Series.unique()` on the `crypto_id` column: first-occurrence order,
with the accumulator of already-seen ids made explicit so the recursion is
structural. -/
def uniqueKeysAux (seen : List String) : List String → List String
  | [] => []
  | x :: rest =>
    if x ∈ seen then uniqueKeysAux seen rest
    else x :: uniqueKeysAux (x :: seen) rest

/-- `df["crypto_id"].unique()`. -/
def uniqueKeys (l : List String) : List String := uniqueKeysAux [] l

/-- `calculate_metrics` (`src/database.py:99-154`): read the observation
table ordered by `(crypto_id, date)`, compute each asset's metric series
independently, concatenate them in first-appearance order of the asset
ids, and append the result into the `metrics` table. -/
def calculate_metrics (s : Store) : Except Err Store :=
  (bulkInsert metricKey s.metrics
      ((uniqueKeys ((sortByKey s.price_history).map (fun r => r.crypto_id))).flatMap
        (fun cid =>
          assetMetrics ((sortByKey s.price_history).filter
            (fun r => decide (r.crypto_id = cid)))))).map
    (fun t => { s with metrics := t })

/-- `verify_data` (`src/database.py:157-191`): count the rows of the three
tables, read the observed date range, print a sample of the view.  The
function raises nothing and asserts nothing — it only reports, so in the
model it always returns the counts and the date range. -/
def verify_data (s : Store) :
    Except Err (Nat × Nat × Nat × Option Nat × Option Nat) :=
  .ok (s.cryptocurrencies.length, s.price_history.length, s.metrics.length,
    (s.price_history.map (fun r => r.date)).min?,
    (s.price_history.map (fun r => r.date)).max?)

/-- `run_sample_queries` (`src/database.py:194-231`): two read-only
aggregate queries; no store mutation and no failure path. -/
def run_sample_queries (s : Store) : Except Err Unit := .ok ()

/-- `main` (`src/database.py:234-261`), named `main'` because Lean reserves `main`: the sequential pipeline.  The
`try/except` in the Python `main` prints the error and re-raises it, so a
failing stage short-circuits the run exactly as `Except.bind` does. -/
def main' (prior : Store) (cryptoIn : Option (List CryptoRow))
    (priceIn : Option (List PriceRow)) : Except Err Store :=
  (import_cryptocurrencies cryptoIn (create_database prior)).bind (fun s1 =>
    (import_price_history priceIn s1).bind (fun p =>
      (calculate_metrics p.1).bind (fun s3 =>
        (verify_data s3).bind (fun _ =>
          (run_sample_queries s3).map (fun _ => s3)))))


/-! ### Concrete example data and auxiliary orders used in the claims -/

/-- Lexicographic order on `(asset_id, date)` keys, the order the spec
says the importer sorts by before insertion (string order is spelled on
the character lists, which is exactly `String`'s lexicographic order). -/
def pairLE (a b : String × Nat) : Prop :=
  a.1.data < b.1.data ∨ (a.1 = b.1 ∧ a.2 ≤ b.2)

instance (a b : String × Nat) : Decidable (pairLE a b) := by
  unfold pairLE
  infer_instance

/-- A concrete unsorted input: two distinct keys in descending order. -/
def exUnsorted : List PriceRow := [⟨"eth", 5, 1, 1, 1⟩, ⟨"btc", 3, 2, 2, 2⟩]

/-- The spec's concrete example: one asset, three consecutive dates,
prices 100, 110, 99. -/
def exC1 : List PriceRow :=
  [⟨"btc", 1, 100, 0, 1⟩, ⟨"btc", 2, 110, 0, 2⟩, ⟨"btc", 3, 99, 0, 3⟩]

/-- A flat eight-observation series: seven return-bearing rows, so the
seventh (index 6) is the first with a defined 7-row volatility. -/
def exC2 : List PriceRow :=
  [⟨"btc", 1, 1, 0, 1⟩, ⟨"btc", 2, 1, 0, 1⟩, ⟨"btc", 3, 1, 0, 1⟩, ⟨"btc", 4, 1, 0, 1⟩,
    ⟨"btc", 5, 1, 0, 1⟩, ⟨"btc", 6, 1, 0, 1⟩, ⟨"btc", 7, 1, 0, 1⟩, ⟨"btc", 8, 1, 0, 1⟩]

/-- Series with a `0/0` price pair at positions 1, 2. -/
def exC9a : List PriceRow :=
  [⟨"btc", 1, 1, 0, 1⟩, ⟨"btc", 2, 0, 0, 1⟩, ⟨"btc", 3, 0, 0, 1⟩]

/-- Series with defined returns but a `0/0` volume pair at positions
1, 2. -/
def exC9b : List PriceRow :=
  [⟨"btc", 1, 1, 0, 5⟩, ⟨"btc", 2, 2, 0, 0⟩, ⟨"btc", 3, 3, 0, 0⟩]

/-- Series with strictly positive prices and volumes. -/
def exC9c : List PriceRow :=
  [⟨"eth", 1, 4, 0, 1⟩, ⟨"eth", 2, 5, 0, 2⟩]

/-! ### Helper lemmas about deduplication -/

/-- Unfolding equation: a later duplicate of the head's key drops the head. -/
theorem dedupLast_cons_pos {α κ : Type} [DecidableEq κ] (key : α → κ) {r : α} {rest : List α}
    (h : rest.any (fun x => decide (key x = key r)) = true) :
    dedupLast key (r :: rest) = dedupLast key rest := by
  have e : dedupLast key (r :: rest) =
      if (rest.any fun x => decide (key x = key r)) = true then dedupLast key rest
      else r :: dedupLast key rest := rfl
  rw [e, h]
  rfl

/-- Unfolding equation: a head whose key never recurs is kept. -/
theorem dedupLast_cons_neg {α κ : Type} [DecidableEq κ] (key : α → κ) {r : α} {rest : List α}
    (h : rest.any (fun x => decide (key x = key r)) = false) :
    dedupLast key (r :: rest) = r :: dedupLast key rest := by
  have e : dedupLast key (r :: rest) =
      if (rest.any fun x => decide (key x = key r)) = true then dedupLast key rest
      else r :: dedupLast key rest := rfl
  rw [e, h]
  rfl

/-- Deduplication only discards rows: the surviving rows form a
subsequence of the input, in input order. -/
theorem dedupLast_sublist {α κ : Type} [DecidableEq κ] (key : α → κ) :
    ∀ l : List α, (dedupLast key l).Sublist l
  | [] => List.Sublist.refl []
  | r :: rest => by
    cases hb : rest.any (fun x => decide (key x = key r)) with
    | true =>
      rw [dedupLast_cons_pos key hb]
      exact (dedupLast_sublist key rest).trans (List.sublist_cons_self r rest)
    | false =>
      rw [dedupLast_cons_neg key hb]
      exact (dedupLast_sublist key rest).cons₂ r

/-- After deduplication no two surviving rows share a key. -/
theorem dedupLast_keys_nodup {α κ : Type} [DecidableEq κ] (key : α → κ) :
    ∀ l : List α, ((dedupLast key l).map key).Nodup
  | [] => List.nodup_nil
  | r :: rest => by
    cases hb : rest.any (fun x => decide (key x = key r)) with
    | true =>
      rw [dedupLast_cons_pos key hb]
      exact dedupLast_keys_nodup key rest
    | false =>
      rw [dedupLast_cons_neg key hb, List.map_cons, List.nodup_cons]
      refine ⟨fun hmem => ?_, dedupLast_keys_nodup key rest⟩
      obtain ⟨x, hx, hkx⟩ := List.mem_map.mp hmem
      have hx' : x ∈ rest := (dedupLast_sublist key rest).mem hx
      have hany : rest.any (fun x => decide (key x = key r)) = true :=
        List.any_eq_true.mpr ⟨x, hx', by simp [hkx]⟩
      rw [hb] at hany
      exact Bool.false_ne_true hany

/-- Auxiliary: `getLast?` ignores a freshly consed head when the tail is
nonempty. -/
theorem getLast?_cons_ne_nil {α : Type} (a : α) {l : List α} (h : l ≠ []) :
    (a :: l).getLast? = l.getLast? := by
  cases l with
  | nil => exact absurd rfl h
  | cons b t => rfl

/-- The rows of the deduplicated list carrying a given key are exactly the
last input row with that key (none when the key never occurs). -/
theorem dedupLast_filter_key {α κ : Type} [DecidableEq κ] (key : α → κ) (k : κ) :
    ∀ l : List α,
      (dedupLast key l).filter (fun r => decide (key r = k)) =
        (l.filter (fun r => decide (key r = k))).getLast?.toList
  | [] => rfl
  | r :: rest => by
    cases hb : rest.any (fun x => decide (key x = key r)) with
    | true =>
      rw [dedupLast_cons_pos key hb, dedupLast_filter_key key k rest, List.filter_cons]
      by_cases hk : key r = k
      · obtain ⟨x, hx, hkx⟩ := List.any_eq_true.mp hb
        have hne : rest.filter (fun r => decide (key r = k)) ≠ [] := by
          intro hnil
          have hx0 := List.filter_eq_nil_iff.mp hnil x hx
          simp only [decide_eq_true_eq] at hx0 hkx
          exact hx0 (hkx.trans hk)
        rw [if_pos (by simp [hk]), getLast?_cons_ne_nil r hne]
      · rw [if_neg (by simp [hk])]
    | false =>
      have hnil : key r = k → rest.filter (fun r => decide (key r = k)) = [] := by
        intro hk
        refine List.filter_eq_nil_iff.mpr (fun x hx => ?_)
        simp only [decide_eq_true_eq]
        intro hkx
        have hany : rest.any (fun x => decide (key x = key r)) = true :=
          List.any_eq_true.mpr ⟨x, hx, by simp [hkx, hk]⟩
        rw [hb] at hany
        exact Bool.false_ne_true hany
      rw [dedupLast_cons_neg key hb, List.filter_cons, List.filter_cons]
      by_cases hk : key r = k
      · have hnil' : (dedupLast key rest).filter (fun r => decide (key r = k)) = [] := by
          refine List.filter_eq_nil_iff.mpr (fun x hx => ?_)
          exact List.filter_eq_nil_iff.mp (hnil hk) x ((dedupLast_sublist key rest).mem hx)
        rw [if_pos (by simp [hk]), if_pos (by simp [hk]), hnil hk, hnil']
        rfl
      · rw [if_neg (by simp [hk]), if_neg (by simp [hk]), dedupLast_filter_key key k rest]

/-! ### Helper lemmas about the metric columns -/

/-- When every price except possibly the last is nonzero, `pct_change` is
the totally-defined column `pcVals`, preceded by the `NaN` of the first
row. -/
theorem pct_change_eq_pcVals :
    ∀ (x : ℚ) (rest : List ℚ),
      (∀ y ∈ (x :: rest).dropLast, y ≠ 0) →
      pct_change (x :: rest) = none :: (pcVals (x :: rest)).map some := by
  intro x rest
  induction rest generalizing x with
  | nil => intro _; rfl
  | cons b rest2 ih =>
    intro h
    have hx : x ≠ 0 := by
      refine h x ?_
      rw [List.dropLast_cons₂]
      exact List.mem_cons_self x _
    have htail := ih b (fun y hy => h y (by rw [List.dropLast_cons₂]; exact List.mem_cons_of_mem x hy))
    have e1 : pct_change (x :: b :: rest2) =
        none :: (if x = 0 then none else some ((b - x) / x * 100)) ::
          List.zipWith (fun prev cur => if prev = 0 then none else some ((cur - prev) / prev * 100))
            (b :: rest2) rest2 := rfl
    have e2 : pcVals (x :: b :: rest2) =
        ((b - x) / x * 100) ::
          List.zipWith (fun prev cur => (cur - prev) / prev * 100) (b :: rest2) rest2 := rfl
    have e3 : pct_change (b :: rest2) =
        none :: List.zipWith (fun prev cur => if prev = 0 then none else some ((cur - prev) / prev * 100))
          (b :: rest2) rest2 := rfl
    have e4 : pcVals (b :: rest2) =
        List.zipWith (fun prev cur => (cur - prev) / prev * 100) (b :: rest2) rest2 := rfl
    rw [e1, e2, if_neg hx, List.map_cons]
    rw [e3, e4] at htail
    injection htail with _ htl
    rw [htl]

/-- `pcVals` has one entry per consecutive pair. -/
theorem pcVals_length : ∀ xs : List ℚ, (pcVals xs).length = xs.length - 1
  | [] => rfl
  | x :: rest => by
    have e : pcVals (x :: rest) =
        List.zipWith (fun prev cur => (cur - prev) / prev * 100) (x :: rest) rest := rfl
    rw [e, List.length_zipWith, List.length_cons]
    omega

/-- Entry `j` of `pcVals` is the percentage change over the pair at
`(j, j+1)`. -/
theorem pcVals_getD (xs : List ℚ) (j : Nat) (hj : j + 1 < xs.length) :
    (pcVals xs).getD j 0 = (xs.getD (j + 1) 0 - xs.getD j 0) / xs.getD j 0 * 100 := by
  cases xs with
  | nil => simp at hj
  | cons x rest =>
    have e : pcVals (x :: rest) =
        List.zipWith (fun prev cur => (cur - prev) / prev * 100) (x :: rest) rest := rfl
    rw [e]
    have hjr : j < rest.length := by
      simp only [List.length_cons] at hj; omega
    have hzl : j <
        (List.zipWith (fun prev cur => (cur - prev) / prev * 100) (x :: rest) rest).length := by
      rw [List.length_zipWith, List.length_cons]; omega
    rw [List.getD_eq_getElem _ _ hzl, List.getElem_zipWith,
      List.getD_eq_getElem _ _ hj,
      List.getD_eq_getElem _ _ (show j < (x :: rest).length by simp; omega)]
    simp [List.getElem_cons_succ]

/-- `allSome` of a fully present window. -/
theorem allSome_map_some : ∀ l : List ℚ, allSome (l.map some) = some l
  | [] => rfl
  | x :: rest => by
    have e : allSome (some x :: rest.map some) = (allSome (rest.map some)).map (fun l => x :: l) := rfl
    rw [List.map_cons, e, allSome_map_some rest]
    rfl

/-- Rolling-window statistics over the return column `none :: vals.map
some`: at return-bearing row `j` (column position `j+1`) the `w`-row
window is defined exactly when `j+1 ≥ w` — the head `NaN` poisons every
earlier window — and then covers the `w` trailing return values. -/
theorem rollingVar_shift (vals : List ℚ) (w j : Nat) (hw : 1 ≤ w) (hj : j < vals.length) :
    rollingVar w (none :: vals.map some) (j + 1) =
      if w ≤ j + 1 then some (sampleVar ((vals.drop (j + 1 - w)).take w)) else none := by
  unfold rollingVar windowVals
  by_cases hcase : w ≤ j + 1
  · have h1 : w ≤ j + 1 + 1 := by omega
    rw [if_pos h1, if_pos hcase, List.take_succ_cons,
      show j + 1 + 1 - w = (j + 1 - w) + 1 by omega, List.drop_succ_cons,
      ← List.map_take, ← List.map_drop, List.drop_take,
      show j + 1 - (j + 1 - w) = w by omega, allSome_map_some]
    rfl
  · rw [if_neg hcase]
    by_cases h3 : w ≤ j + 1 + 1
    · rw [if_pos h3, show j + 1 + 1 - w = 0 by omega, List.drop_zero, List.take_succ_cons]
      rfl
    · rw [if_neg h3]
      rfl

/-- A `filterMap` whose function is total on the traversed list is a
`map`. -/
theorem filterMap_eq_map_of {α β : Type} (l : List α) (f : α → Option β) (g : α → β)
    (h : ∀ a ∈ l, f a = some (g a)) : l.filterMap f = l.map g := by
  induction l with
  | nil => rfl
  | cons a t ih =>
    rw [List.filterMap_cons, h a (List.mem_cons_self a t), List.map_cons,
      ih (fun x hx => h x (List.mem_cons_of_mem a hx))]

/-- Structure theorem for the per-asset metric computation: when every
price that has a successor is nonzero, the metric list has exactly one
row per observation row except the first, the row for sorted position
`j+1` carrying the return `pcVals[j]`. -/
theorem assetMetricsSorted_eq_map (sorted : List PriceRow)
    (hnz : ∀ y ∈ (sorted.map (fun r => r.price_usd)).dropLast, y ≠ 0) :
    assetMetricsSorted sorted =
      (List.range (sorted.length - 1)).map (fun j =>
        mkMetricRow sorted (pct_change (sorted.map (fun r => r.price_usd)))
          (pct_change (sorted.map (fun r => r.total_volume))) (j + 1)
          ((pcVals (sorted.map (fun r => r.price_usd))).getD j 0)) := by
  cases sorted with
  | nil => rfl
  | cons a rest =>
    have hcol : (a :: rest).map (fun r => r.price_usd) =
        a.price_usd :: rest.map (fun r => r.price_usd) := List.map_cons ..
    have hps : pct_change ((a :: rest).map (fun r => r.price_usd)) =
        none :: (pcVals ((a :: rest).map (fun r => r.price_usd))).map some := by
      rw [hcol]
      exact pct_change_eq_pcVals _ _ (by rw [← hcol]; exact hnz)
    have hvlen : (pcVals ((a :: rest).map (fun r => r.price_usd))).length = rest.length := by
      rw [pcVals_length, List.length_map, List.length_cons]
      omega
    have e : assetMetricsSorted (a :: rest) =
        (List.range (a :: rest).length).filterMap (fun i =>
          match (pct_change ((a :: rest).map (fun r => r.price_usd))).getD i none with
          | none => none
          | some r =>
            some (mkMetricRow (a :: rest) (pct_change ((a :: rest).map (fun r => r.price_usd)))
              (pct_change ((a :: rest).map (fun r => r.total_volume))) i r)) := rfl
    rw [e, List.length_cons, List.range_succ_eq_map, List.filterMap_cons, hps]
    simp only [List.getD_cons_zero]
    rw [List.filterMap_map]
    rw [show rest.length + 1 - 1 = rest.length by omega]
    refine filterMap_eq_map_of (List.range rest.length) _ _ ?_
    intro j hj
    have hjr : j < rest.length := List.mem_range.mp hj
    have hjv : j < (pcVals ((a :: rest).map (fun r => r.price_usd))).length := by
      rw [hvlen]; exact hjr
    have hsome : ((pcVals ((a :: rest).map (fun r => r.price_usd))).map some).getD j none =
        some ((pcVals ((a :: rest).map (fun r => r.price_usd))).getD j 0) := by
      rw [List.getD_eq_getElem _ _ (by simpa using hjv), List.getElem_map,
        List.getD_eq_getElem _ _ hjv]
    simp only [Function.comp, Nat.succ_eq_add_one, List.getD_cons_succ, hsome]

/-! ### Claims about the importer (C3, C4, C5) -/

/-- C3: importing any raw observation sequence into a fresh store

succeeds, and for every key the stored rows with that key are exactly the
last input tuple carrying it — last-write-wins, one row per distinct
key. -/
theorem c3_last_write_wins (df : List PriceRow) (k : String × Nat) :
    (import_price_history (some df) initStore).map
        (fun p => p.1.price_history.filter (fun r => decide (obsKey r = k))) =
      .ok ((df.filter (fun r => decide (obsKey r = k))).getLast?.toList) := by
  simp only [import_price_history, initStore, bulkInsert, List.nil_append, Except.map]
  rw [if_pos (dedupLast_keys_nodup obsKey df)]
  exact congrArg Except.ok (dedupLast_filter_key obsKey k df)

/-- C4: whenever the observation import succeeds, no two stored
observation rows share an `(asset_id, date)` key. -/
theorem c4_observation_uniqueness (input : List PriceRow) (s s' : Store) (dd : List PriceRow)
    (h : import_price_history (some input) s = .ok (s', dd)) :
    (s'.price_history.map obsKey).Nodup := by
  simp only [import_price_history, bulkInsert] at h
  by_cases hn : ((s.price_history ++ dedupLast obsKey input).map obsKey).Nodup
  · rw [if_pos hn] at h
    simp only [Except.map] at h
    cases h
    exact hn
  · rw [if_neg hn] at h
    simp only [Except.map] at h
    cases h

/-- C4 witness: a concrete import with a duplicated key succeeds and the
stored keys are distinct. -/
theorem c4_observation_uniqueness_witness :
    ((Store.mk [] [⟨"btc", 1, 120, 0, 2⟩, ⟨"eth", 1, 5, 0, 3⟩] []).price_history.map
      obsKey).Nodup :=
  c4_observation_uniqueness
    [⟨"btc", 1, 100, 0, 1⟩, ⟨"btc", 1, 120, 0, 2⟩, ⟨"eth", 1, 5, 0, 3⟩] initStore _ _ rfl

/-- C5 counterexample: the importer hands the deduplicated frame to the
insert unsorted — on this input the sequence reaching the insert is not
sorted by `(asset_id, date)`, refuting the sorting claim. -/
theorem c5_counterexample :
    (import_price_history (some exUnsorted) initStore).map (fun p => p.2) =
        .ok (dedupLast obsKey exUnsorted) ∧
      ¬ List.Pairwise (fun a b => pairLE (obsKey a) (obsKey b)) (dedupLast obsKey exUnsorted) := by
  constructor
  · rfl
  · decide

/-- C5 as amended: the importer performs no sort; the sequence handed to
the insert is exactly the deduplicated frame, whose rows keep their
relative input order (a subsequence of the input). -/
theorem c5_insertion_preserves_input_order (df : List PriceRow) :
    (import_price_history (some df) initStore).map (fun p => p.2) =
        .ok (dedupLast obsKey df) ∧
      (dedupLast obsKey df).Sublist df := by
  refine ⟨?_, dedupLast_sublist obsKey df⟩
  simp only [import_price_history, initStore, bulkInsert, List.nil_append, Except.map]
  rw [if_pos (dedupLast_keys_nodup obsKey df)]

/-! ### Claims about initialisation, error propagation and verification (C6, C7, C8) -/

/-- C6: `create_database` (the spec's `initialize()`) is a destructive
idempotent reset: from any prior store state — populated or not — it
yields the fresh empty schema, the same state regardless of the prior
one, with no residual rows. -/
theorem c6_initialize_destructive_reset (s t : Store) :
    (create_database s).cryptocurrencies = [] ∧
      (create_database s).price_history = [] ∧
      (create_database s).metrics = [] ∧
      create_database s = create_database t ∧
      create_database (create_database s) = create_database s :=
  ⟨rfl, rfl, rfl, rfl, rfl⟩

/-- C7: errors in the import stages or the metrics stage are not caught:
whichever stage fails first, `main'` returns exactly that error, and a
successful run certifies every stage succeeded (nothing was swallowed or
retried). -/
theorem c7_error_propagation :
    (∀ (prior : Store) (cIn : Option (List CryptoRow)) (pIn : Option (List PriceRow)) (e : Err),
        import_cryptocurrencies cIn (create_database prior) = .error e →
        main' prior cIn pIn = .error e) ∧
    (∀ (prior : Store) (cIn : Option (List CryptoRow)) (pIn : Option (List PriceRow))
        (s1 : Store) (e : Err),
        import_cryptocurrencies cIn (create_database prior) = .ok s1 →
        import_price_history pIn s1 = .error e →
        main' prior cIn pIn = .error e) ∧
    (∀ (prior : Store) (cIn : Option (List CryptoRow)) (pIn : Option (List PriceRow))
        (s1 : Store) (p : Store × List PriceRow) (e : Err),
        import_cryptocurrencies cIn (create_database prior) = .ok s1 →
        import_price_history pIn s1 = .ok p →
        calculate_metrics p.1 = .error e →
        main' prior cIn pIn = .error e) ∧
    (∀ (prior : Store) (cIn : Option (List CryptoRow)) (pIn : Option (List PriceRow))
        (s3 : Store),
        main' prior cIn pIn = .ok s3 →
        ∃ (s1 : Store) (p : Store × List PriceRow),
          import_cryptocurrencies cIn (create_database prior) = .ok s1 ∧
            import_price_history pIn s1 = .ok p ∧ calculate_metrics p.1 = .ok s3) := by
  refine ⟨?_, ?_, ?_, ?_⟩
  · intro prior cIn pIn e h
    unfold main'
    rw [h]
    rfl
  · intro prior cIn pIn s1 e h1 h2
    unfold main'
    rw [h1]
    show (import_price_history pIn s1).bind _ = _
    rw [h2]
    rfl
  · intro prior cIn pIn s1 p e h1 h2 h3
    unfold main'
    rw [h1]
    show (import_price_history pIn s1).bind _ = _
    rw [h2]
    show (calculate_metrics p.1).bind _ = _
    rw [h3]
    rfl
  · intro prior cIn pIn s3 h
    unfold main' at h
    cases hc : import_cryptocurrencies cIn (create_database prior) with
    | error e =>
      rw [hc] at h
      exact absurd h (by simp [Except.bind])
    | ok s1 =>
      rw [hc] at h
      replace h : (import_price_history pIn s1).bind _ = Except.ok s3 := h
      cases hp : import_price_history pIn s1 with
      | error e =>
        rw [hp] at h
        exact absurd h (by simp [Except.bind])
      | ok p =>
        rw [hp] at h
        replace h : (calculate_metrics p.1).bind _ = Except.ok s3 := h
        cases hm : calculate_metrics p.1 with
        | error e =>
          rw [hm] at h
          exact absurd h (by simp [Except.bind])
        | ok s3' =>
          rw [hm] at h
          replace h : Except.ok (ε := Err) s3' = Except.ok s3 := h
          cases h
          exact ⟨s1, p, rfl, hp, hm⟩

/-- C7 witness: with a concrete prior store, a valid metadata input and a
missing price CSV, the import error propagates through `main'`
unchanged. -/
theorem c7_error_propagation_witness :
    main' initStore (some [⟨"btc", "BTC", "Bitcoin"⟩]) none = .error .inputError :=
  c7_error_propagation.2.1 initStore (some [⟨"btc", "BTC", "Bitcoin"⟩]) none
    ⟨[⟨"btc", "BTC", "Bitcoin"⟩], [], []⟩ .inputError rfl rfl

/-- C8 counterexample: on the fully empty store every table has zero
rows, yet `verify_data` succeeds and merely reports the zero counts — it
does not fail, refuting the claim that an empty table makes the
verification stage fail. -/
theorem c8_counterexample :
    verify_data initStore = .ok (0, 0, 0, none, none) ∧
      initStore.cryptocurrencies = [] ∧ initStore.price_history = [] ∧
      initStore.metrics = [] :=
  ⟨rfl, rfl, rfl, rfl⟩

/-- C8 as amended: the verification stage only reports — it returns the
per-table row counts and the observed date range for every store state,
empty tables included, and never fails. -/
theorem c8_verify_reports_only (s : Store) :
    verify_data s = .ok (s.cryptocurrencies.length, s.price_history.length, s.metrics.length,
      (s.price_history.map (fun r => r.date)).min?,
      (s.price_history.map (fun r => r.date)).max?) :=
  rfl

/-! ### The metrics stage only appends (C10) -/

/-- A successful `bulkInsert` returns the old table with the new rows
appended. -/
theorem bulkInsert_ok {α κ : Type} [DecidableEq κ] (key : α → κ) (tbl rows t : List α)
    (h : bulkInsert key tbl rows = .ok t) : t = tbl ++ rows := by
  unfold bulkInsert at h
  by_cases hn : ((tbl ++ rows).map key).Nodup
  · rw [if_pos hn] at h
    cases h
    rfl
  · rw [if_neg hn] at h
    cases h

/-- A successful `Except.map` comes from a successful argument. -/
theorem exceptMap_ok {ε α β : Type} (f : α → β) (x : Except ε α) (b : β)
    (h : x.map f = .ok b) : ∃ a, x = .ok a ∧ f a = b := by
  cases x with
  | error e => simp [Except.map] at h
  | ok a =>
    refine ⟨a, rfl, ?_⟩
    simpa [Except.map] using h

/-- C10: a successful run of the metrics stage leaves the assets table
and the observations table untouched and only appends to the metrics
table (the prior metric rows are a prefix of the new ones). -/
theorem c10_metrics_frame (s s' : Store) (h : calculate_metrics s = .ok s') :
    s'.cryptocurrencies = s.cryptocurrencies ∧ s'.price_history = s.price_history ∧
      s.metrics <+: s'.metrics := by
  unfold calculate_metrics at h
  obtain ⟨t, hbi, hf⟩ := exceptMap_ok _ _ _ h
  have ht := bulkInsert_ok _ _ _ _ hbi
  rw [← hf]
  refine ⟨rfl, rfl, ?_⟩
  rw [ht]
  exact List.prefix_append ..

/-- C10 witness: a concrete two-observation store on which the metrics
stage succeeds; the theorem yields the frame facts for it. -/
theorem c10_metrics_frame_witness :
    (Store.mk [⟨"btc", "BTC", "Bitcoin"⟩]
        [⟨"btc", 1, 100, 0, 1⟩, ⟨"btc", 2, 110, 0, 2⟩]
        [⟨"btc", 2, 10, none, none, some 100⟩]).cryptocurrencies =
      (Store.mk [⟨"btc", "BTC", "Bitcoin"⟩]
        [⟨"btc", 1, 100, 0, 1⟩, ⟨"btc", 2, 110, 0, 2⟩] []).cryptocurrencies ∧
    (Store.mk [⟨"btc", "BTC", "Bitcoin"⟩]
        [⟨"btc", 1, 100, 0, 1⟩, ⟨"btc", 2, 110, 0, 2⟩]
        [⟨"btc", 2, 10, none, none, some 100⟩]).price_history =
      (Store.mk [⟨"btc", "BTC", "Bitcoin"⟩]
        [⟨"btc", 1, 100, 0, 1⟩, ⟨"btc", 2, 110, 0, 2⟩] []).price_history ∧
    (Store.mk [⟨"btc", "BTC", "Bitcoin"⟩]
        [⟨"btc", 1, 100, 0, 1⟩, ⟨"btc", 2, 110, 0, 2⟩] []).metrics <+:
      (Store.mk [⟨"btc", "BTC", "Bitcoin"⟩]
        [⟨"btc", 1, 100, 0, 1⟩, ⟨"btc", 2, 110, 0, 2⟩]
        [⟨"btc", 2, 10, none, none, some 100⟩]).metrics :=
  c10_metrics_frame
    (Store.mk [⟨"btc", "BTC", "Bitcoin"⟩]
      [⟨"btc", 1, 100, 0, 1⟩, ⟨"btc", 2, 110, 0, 2⟩] [])
    (Store.mk [⟨"btc", "BTC", "Bitcoin"⟩]
      [⟨"btc", 1, 100, 0, 1⟩, ⟨"btc", 2, 110, 0, 2⟩]
      [⟨"btc", 2, 10, none, none, some 100⟩])
    (by norm_num [calculate_metrics, sortByKey, List.insertionSort, List.orderedInsert,
      uniqueKeys, uniqueKeysAux, assetMetrics, assetMetricsSorted, sortByDate, pct_change,
      mkMetricRow, rollingVar, windowVals, allSome, bulkInsert, metricKey, obsKey,
      List.range_succ, List.filterMap, Except.map])

/-! ### Index lemmas for the metric columns -/

/-- `getD` through a `map`, with any defaults. -/
theorem map_getD_default {α β : Type} (l : List α) (f : α → β) (dα : α) (dβ : β) (j : Nat)
    (hj : j < l.length) : (l.map f).getD j dβ = f (l.getD j dα) := by
  rw [List.getD_eq_getElem _ _ (by simpa using hj), List.getElem_map,
    List.getD_eq_getElem _ _ hj]

/-- `pct_change` keeps the column length. -/
theorem pct_change_length : ∀ xs : List ℚ, (pct_change xs).length = xs.length
  | [] => rfl
  | x :: rest => by
    have e : pct_change (x :: rest) =
        none :: List.zipWith
          (fun prev cur => if prev = 0 then none else some ((cur - prev) / prev * 100))
          (x :: rest) rest := rfl
    rw [e, List.length_cons, List.length_zipWith, List.length_cons]
    omega

/-- Entry `j+1` of `pct_change`: defined with the percentage-change value
when the previous entry is nonzero, `NaN` when it is zero. -/
theorem pct_change_getD_succ (xs : List ℚ) (j : Nat) (hj : j + 1 < xs.length) :
    (pct_change xs).getD (j + 1) none =
      if xs.getD j 0 = 0 then none
      else some ((xs.getD (j + 1) 0 - xs.getD j 0) / xs.getD j 0 * 100) := by
  cases xs with
  | nil => simp at hj
  | cons x rest =>
    have e : pct_change (x :: rest) =
        none :: List.zipWith
          (fun prev cur => if prev = 0 then none else some ((cur - prev) / prev * 100))
          (x :: rest) rest := rfl
    rw [e, List.getD_cons_succ]
    have hjr : j < rest.length := by
      simp only [List.length_cons] at hj; omega
    have hzl : j < (List.zipWith
        (fun prev cur => if prev = 0 then none else some ((cur - prev) / prev * 100))
        (x :: rest) rest).length := by
      rw [List.length_zipWith, List.length_cons]; omega
    rw [List.getD_eq_getElem _ _ hzl, List.getElem_zipWith,
      List.getD_eq_getElem _ _ hj,
      List.getD_eq_getElem _ _ (show j < (x :: rest).length by simp; omega)]
    simp [List.getElem_cons_succ]

/-- The first entry of `pct_change` is the `NaN` of the first row. -/
theorem pct_change_getD_zero (xs : List ℚ) : (pct_change xs).getD 0 none = none := by
  cases xs with
  | nil => rfl
  | cons x rest => rfl

/-! ### The daily-return rows (C1) -/

/-- C1: over date-ascending observations with nonzero predecessor
prices, the metrics stage emits exactly one row per observation except
the first; row `j` carries the asset, the date of sorted observation
`j+1`, and the return `(price[j+1] - price[j]) / price[j] * 100`; and on
prices `[100, 110, 99]` the stored returns are `[10, -10]`. -/
theorem c1_daily_return :
    (∀ rows : List PriceRow,
        (∀ y ∈ ((sortByDate rows).map (fun r => r.price_usd)).dropLast, y ≠ 0) →
        (assetMetrics rows).length = (sortByDate rows).length - 1 ∧
          ∀ j : Nat, j < (assetMetrics rows).length →
            ((assetMetrics rows).getD j defaultMetricRow).crypto_id =
                ((sortByDate rows).getD (j + 1) defaultPriceRow).crypto_id ∧
              ((assetMetrics rows).getD j defaultMetricRow).date =
                ((sortByDate rows).getD (j + 1) defaultPriceRow).date ∧
              ((assetMetrics rows).getD j defaultMetricRow).daily_return =
                (((sortByDate rows).getD (j + 1) defaultPriceRow).price_usd -
                    ((sortByDate rows).getD j defaultPriceRow).price_usd) /
                  ((sortByDate rows).getD j defaultPriceRow).price_usd * 100) ∧
      (assetMetrics exC1).map (fun r => r.daily_return) = [10, -10] := by
  constructor
  · intro rows hnz
    have hmaster := assetMetricsSorted_eq_map (sortByDate rows) hnz
    have hlen : (assetMetrics rows).length = (sortByDate rows).length - 1 := by
      rw [assetMetrics, hmaster, List.length_map, List.length_range]
    refine ⟨hlen, ?_⟩
    intro j hj
    have hjn : j < (sortByDate rows).length - 1 := hlen ▸ hj
    have hrow : (assetMetrics rows).getD j defaultMetricRow =
        mkMetricRow (sortByDate rows)
          (pct_change ((sortByDate rows).map (fun r => r.price_usd)))
          (pct_change ((sortByDate rows).map (fun r => r.total_volume))) (j + 1)
          ((pcVals ((sortByDate rows).map (fun r => r.price_usd))).getD j 0) := by
      rw [assetMetrics, hmaster]
      rw [List.getD_eq_getElem _ _ (by rw [List.length_map, List.length_range]; exact hjn)]
      rw [List.getElem_map, List.getElem_range]
    rw [hrow]
    refine ⟨rfl, rfl, ?_⟩
    show (pcVals ((sortByDate rows).map (fun r => r.price_usd))).getD j 0 = _
    rw [pcVals_getD _ j (by rw [List.length_map]; omega),
      map_getD_default _ _ defaultPriceRow _ _ (by omega),
      map_getD_default _ _ defaultPriceRow _ _ (by omega)]
  · norm_num [exC1, assetMetrics, assetMetricsSorted, sortByDate, List.insertionSort,
      List.orderedInsert, pct_change, mkMetricRow, rollingVar, windowVals, allSome,
      List.range_succ, List.filterMap]

/-- C1 witness: the precondition holds on the `[100, 110, 99]` series and
the theorem instantiates to it. -/
theorem c1_daily_return_witness :
    (∀ y ∈ ((sortByDate exC1).map (fun r => r.price_usd)).dropLast, y ≠ 0) ∧
      ((assetMetrics exC1).length = (sortByDate exC1).length - 1 ∧
        ∀ j : Nat, j < (assetMetrics exC1).length →
          ((assetMetrics exC1).getD j defaultMetricRow).crypto_id =
              ((sortByDate exC1).getD (j + 1) defaultPriceRow).crypto_id ∧
            ((assetMetrics exC1).getD j defaultMetricRow).date =
              ((sortByDate exC1).getD (j + 1) defaultPriceRow).date ∧
            ((assetMetrics exC1).getD j defaultMetricRow).daily_return =
              (((sortByDate exC1).getD (j + 1) defaultPriceRow).price_usd -
                  ((sortByDate exC1).getD j defaultPriceRow).price_usd) /
                ((sortByDate exC1).getD j defaultPriceRow).price_usd * 100) :=
  ⟨by norm_num [exC1, sortByDate, List.insertionSort, List.orderedInsert],
    c1_daily_return.1 exC1
      (by norm_num [exC1, sortByDate, List.insertionSort, List.orderedInsert])⟩

/-! ### The rolling volatility windows (C2) -/

/-- `pct_change_eq_pcVals` for any nonempty column. -/
theorem pct_change_eq_pcVals' (xs : List ℚ) (hxs : xs ≠ [])
    (h : ∀ y ∈ xs.dropLast, y ≠ 0) :
    pct_change xs = none :: (pcVals xs).map some := by
  cases xs with
  | nil => exact absurd rfl hxs
  | cons x rest => exact pct_change_eq_pcVals x rest h

/-- Length of the metric list under the nonzero-predecessor
precondition. -/
theorem assetMetrics_length (rows : List PriceRow)
    (hnz : ∀ y ∈ ((sortByDate rows).map (fun r => r.price_usd)).dropLast, y ≠ 0) :
    (assetMetrics rows).length = (sortByDate rows).length - 1 := by
  rw [assetMetrics, assetMetricsSorted_eq_map _ hnz, List.length_map, List.length_range]

/-- Shape of metric row `j` under the nonzero-predecessor
precondition. -/
theorem assetMetrics_getD (rows : List PriceRow)
    (hnz : ∀ y ∈ ((sortByDate rows).map (fun r => r.price_usd)).dropLast, y ≠ 0)
    (j : Nat) (hjn : j < (sortByDate rows).length - 1) :
    (assetMetrics rows).getD j defaultMetricRow =
      mkMetricRow (sortByDate rows)
        (pct_change ((sortByDate rows).map (fun r => r.price_usd)))
        (pct_change ((sortByDate rows).map (fun r => r.total_volume))) (j + 1)
        ((pcVals ((sortByDate rows).map (fun r => r.price_usd))).getD j 0) := by
  rw [assetMetrics, assetMetricsSorted_eq_map _ hnz]
  rw [List.getD_eq_getElem _ _ (by rw [List.length_map, List.length_range]; exact hjn)]
  rw [List.getElem_map, List.getElem_range]

/-- The `daily_return` column of the stored metric rows is exactly the
defined return series. -/
theorem assetMetrics_map_daily_return (rows : List PriceRow)
    (hnz : ∀ y ∈ ((sortByDate rows).map (fun r => r.price_usd)).dropLast, y ≠ 0) :
    (assetMetrics rows).map (fun r => r.daily_return) =
      pcVals ((sortByDate rows).map (fun r => r.price_usd)) := by
  rw [assetMetrics, assetMetricsSorted_eq_map _ hnz, List.map_map]
  refine List.ext_getElem ?_ ?_
  · rw [List.length_map, List.length_range, pcVals_length, List.length_map]
  · intro i h1 h2
    rw [List.getElem_map, List.getElem_range]
    show (pcVals ((sortByDate rows).map (fun r => r.price_usd))).getD i 0 = _
    rw [List.getD_eq_getElem _ _ h2]

/-- C2: with all prices nonzero, stored metric row `j` has
`volatility_7d` null for the first six return-bearing rows (`j < 6`) and,
from the seventh on, defined and equal to the sample variance — whose
square root is the sample standard deviation — of the trailing seven
stored `daily_return` values `j-6 … j`; `volatility_30d` satisfies the
same property with a 30-row window. -/
theorem c2_volatility_windows (rows : List PriceRow)
    (hpos : ∀ y ∈ (sortByDate rows).map (fun r => r.price_usd), y ≠ 0)
    (j : Nat) (hj : j < (assetMetrics rows).length) :
    (((assetMetrics rows).getD j defaultMetricRow).volatility_7d =
        if 6 ≤ j then
          some (sampleVar
            ((((assetMetrics rows).map (fun r => r.daily_return)).drop (j - 6)).take 7))
        else none) ∧
      ((((assetMetrics rows).getD j defaultMetricRow).volatility_7d).map
            (fun q => Real.sqrt (q : ℝ)) =
        if 6 ≤ j then
          some (sampleStd
            ((((assetMetrics rows).map (fun r => r.daily_return)).drop (j - 6)).take 7))
        else none) ∧
      (((assetMetrics rows).getD j defaultMetricRow).volatility_30d =
        if 29 ≤ j then
          some (sampleVar
            ((((assetMetrics rows).map (fun r => r.daily_return)).drop (j - 29)).take 30))
        else none) ∧
      ((((assetMetrics rows).getD j defaultMetricRow).volatility_30d).map
            (fun q => Real.sqrt (q : ℝ)) =
        if 29 ≤ j then
          some (sampleStd
            ((((assetMetrics rows).map (fun r => r.daily_return)).drop (j - 29)).take 30))
        else none) := by
  have hnz : ∀ y ∈ ((sortByDate rows).map (fun r => r.price_usd)).dropLast, y ≠ 0 :=
    fun y hy => hpos y ((List.dropLast_sublist _).subset hy)
  have hjn : j < (sortByDate rows).length - 1 := by
    rw [← assetMetrics_length rows hnz]; exact hj
  have hxs : (sortByDate rows).map (fun r => r.price_usd) ≠ [] := by
    have : 0 < ((sortByDate rows).map (fun r => r.price_usd)).length := by
      rw [List.length_map]; omega
    exact List.length_pos.mp this
  have hps := pct_change_eq_pcVals' _ hxs hnz
  have hjv : j < (pcVals ((sortByDate rows).map (fun r => r.price_usd))).length := by
    rw [pcVals_length, List.length_map]; omega
  have hret := assetMetrics_map_daily_return rows hnz
  rw [assetMetrics_getD rows hnz j hjn, hret]
  have hfield7 : (mkMetricRow (sortByDate rows)
      (pct_change ((sortByDate rows).map (fun r => r.price_usd)))
      (pct_change ((sortByDate rows).map (fun r => r.total_volume))) (j + 1)
      ((pcVals ((sortByDate rows).map (fun r => r.price_usd))).getD j 0)).volatility_7d =
      rollingVar 7 (pct_change ((sortByDate rows).map (fun r => r.price_usd))) (j + 1) := rfl
  have hfield30 : (mkMetricRow (sortByDate rows)
      (pct_change ((sortByDate rows).map (fun r => r.price_usd)))
      (pct_change ((sortByDate rows).map (fun r => r.total_volume))) (j + 1)
      ((pcVals ((sortByDate rows).map (fun r => r.price_usd))).getD j 0)).volatility_30d =
      rollingVar 30 (pct_change ((sortByDate rows).map (fun r => r.price_usd))) (j + 1) := rfl
  have h7 : rollingVar 7 (pct_change ((sortByDate rows).map (fun r => r.price_usd))) (j + 1) =
      if 6 ≤ j then
        some (sampleVar
          (((pcVals ((sortByDate rows).map (fun r => r.price_usd))).drop (j - 6)).take 7))
      else none := by
    rw [hps, rollingVar_shift _ 7 j (by omega) hjv]
    by_cases h6 : 6 ≤ j
    · rw [if_pos (show 7 ≤ j + 1 by omega), if_pos h6, show j + 1 - 7 = j - 6 by omega]
    · rw [if_neg (show ¬ 7 ≤ j + 1 by omega), if_neg h6]
  have h30 : rollingVar 30 (pct_change ((sortByDate rows).map (fun r => r.price_usd))) (j + 1) =
      if 29 ≤ j then
        some (sampleVar
          (((pcVals ((sortByDate rows).map (fun r => r.price_usd))).drop (j - 29)).take 30))
      else none := by
    rw [hps, rollingVar_shift _ 30 j (by omega) hjv]
    by_cases h29 : 29 ≤ j
    · rw [if_pos (show 30 ≤ j + 1 by omega), if_pos h29, show j + 1 - 30 = j - 29 by omega]
    · rw [if_neg (show ¬ 30 ≤ j + 1 by omega), if_neg h29]
  refine ⟨by rw [hfield7, h7], ?_, by rw [hfield30, h30], ?_⟩
  · rw [hfield7, h7]
    by_cases h6 : 6 ≤ j
    · rw [if_pos h6, if_pos h6]
      rfl
    · rw [if_neg h6, if_neg h6]
      rfl
  · rw [hfield30, h30]
    by_cases h29 : 29 ≤ j
    · rw [if_pos h29, if_pos h29]
      rfl
    · rw [if_neg h29, if_neg h29]
      rfl

/-- C2 witness: the positivity precondition holds on the flat series,
index 6 is in range, and the theorem instantiates there (the 7-row
window is defined at the seventh return-bearing row). -/
theorem c2_volatility_windows_witness :
    (∀ y ∈ (sortByDate exC2).map (fun r => r.price_usd), y ≠ 0) ∧
      6 < (assetMetrics exC2).length ∧
      ((((assetMetrics exC2).getD 6 defaultMetricRow).volatility_7d =
          if 6 ≤ 6 then
            some (sampleVar
              ((((assetMetrics exC2).map (fun r => r.daily_return)).drop (6 - 6)).take 7))
          else none) ∧
        ((((assetMetrics exC2).getD 6 defaultMetricRow).volatility_7d).map
              (fun q => Real.sqrt (q : ℝ)) =
          if 6 ≤ 6 then
            some (sampleStd
              ((((assetMetrics exC2).map (fun r => r.daily_return)).drop (6 - 6)).take 7))
          else none) ∧
        (((assetMetrics exC2).getD 6 defaultMetricRow).volatility_30d =
          if 29 ≤ 6 then
            some (sampleVar
              ((((assetMetrics exC2).map (fun r => r.daily_return)).drop (6 - 29)).take 30))
          else none) ∧
        ((((assetMetrics exC2).getD 6 defaultMetricRow).volatility_30d).map
              (fun q => Real.sqrt (q : ℝ)) =
          if 29 ≤ 6 then
            some (sampleStd
              ((((assetMetrics exC2).map (fun r => r.daily_return)).drop (6 - 29)).take 30))
          else none)) :=
  ⟨by norm_num [exC2, sortByDate, List.insertionSort, List.orderedInsert],
    by norm_num [exC2, assetMetrics, assetMetricsSorted, sortByDate, List.insertionSort,
      List.orderedInsert, pct_change, mkMetricRow, rollingVar, windowVals, allSome,
      List.range_succ, List.filterMap],
    c2_volatility_windows exC2
      (by norm_num [exC2, sortByDate, List.insertionSort, List.orderedInsert])
      6
      (by norm_num [exC2, assetMetrics, assetMetricsSorted, sortByDate, List.insertionSort,
        List.orderedInsert, pct_change, mkMetricRow, rollingVar, windowVals, allSome,
        List.range_succ, List.filterMap])⟩

/-! ### The unguarded divisions (C9) -/

/-- Membership characterisation of the per-asset metric rows: a row is
stored exactly when some sorted position has a defined `daily_return`,
and the row is the one built there. -/
theorem mem_assetMetricsSorted (sorted : List PriceRow) (r : MetricRow) :
    r ∈ assetMetricsSorted sorted ↔
      ∃ i, i < sorted.length ∧ ∃ v,
        (pct_change (sorted.map (fun x => x.price_usd))).getD i none = some v ∧
          r = mkMetricRow sorted (pct_change (sorted.map (fun x => x.price_usd)))
            (pct_change (sorted.map (fun x => x.total_volume))) i v := by
  have e : assetMetricsSorted sorted =
      (List.range sorted.length).filterMap (fun i =>
        match (pct_change (sorted.map (fun x => x.price_usd))).getD i none with
        | none => none
        | some v =>
          some (mkMetricRow sorted (pct_change (sorted.map (fun x => x.price_usd)))
            (pct_change (sorted.map (fun x => x.total_volume))) i v)) := rfl
  rw [e, List.mem_filterMap]
  constructor
  · rintro ⟨i, hi, hFi⟩
    refine ⟨i, List.mem_range.mp hi, ?_⟩
    cases hs : (pct_change (sorted.map (fun x => x.price_usd))).getD i none with
    | none =>
      rw [hs] at hFi
      cases hFi
    | some v =>
      rw [hs] at hFi
      refine ⟨v, rfl, ?_⟩
      injection hFi with hFi
      exact hFi.symm
  · rintro ⟨i, hi, v, hs, rfl⟩
    refine ⟨i, List.mem_range.mpr hi, ?_⟩
    rw [hs]

/-- Part (a) of C9: at a position whose previous and current prices are
both the rational zero, the return is undefined and no metric row is
stored for that date, although the position is not the asset's first. -/
theorem no_metric_row_of_zero_prices (rows : List PriceRow) (j : Nat)
    (hj1 : j + 1 < (sortByDate rows).length)
    (hnd : ((sortByDate rows).map (fun r => r.date)).Nodup)
    (hp0 : ((sortByDate rows).getD j defaultPriceRow).price_usd = 0)
    (hp1 : ((sortByDate rows).getD (j + 1) defaultPriceRow).price_usd = 0) :
    ∀ r ∈ assetMetrics rows,
      r.date ≠ ((sortByDate rows).getD (j + 1) defaultPriceRow).date := by
  intro r hr hdate
  rw [assetMetrics] at hr
  obtain ⟨i, hi, v, hs, rfl⟩ := (mem_assetMetricsSorted _ r).mp hr
  have hnone : (pct_change ((sortByDate rows).map (fun x => x.price_usd))).getD (j + 1)
      none = none := by
    rw [pct_change_getD_succ _ j (by rw [List.length_map]; exact hj1),
      map_getD_default _ _ defaultPriceRow _ _ (by omega), hp0]
    simp
  have hne : i ≠ j + 1 := by
    intro he
    rw [he, hnone] at hs
    cases hs
  have hdate' : ((sortByDate rows).getD i defaultPriceRow).date =
      ((sortByDate rows).getD (j + 1) defaultPriceRow).date := hdate
  rw [List.getD_eq_getElem _ _ hi, List.getD_eq_getElem _ _ hj1] at hdate'
  have him : i < ((sortByDate rows).map (fun r => r.date)).length := by
    rw [List.length_map]; exact hi
  have hjm : j + 1 < ((sortByDate rows).map (fun r => r.date)).length := by
    rw [List.length_map]; exact hj1
  have hgm : ((sortByDate rows).map (fun r => r.date))[i] =
      ((sortByDate rows).map (fun r => r.date))[j + 1] := by
    rw [List.getElem_map, List.getElem_map]
    exact hdate'
  exact hne (hnd.getElem_inj_iff.mp hgm)

/-- Part (b) of C9: a position whose return is defined but whose previous
and current volumes are both zero is stored, with a null
`volume_change_24h`. -/
theorem volume_change_null_of_zero_volumes (rows : List PriceRow) (j : Nat)
    (hj1 : j + 1 < (sortByDate rows).length)
    (hnd : ((sortByDate rows).map (fun r => r.date)).Nodup)
    (hpnz : ((sortByDate rows).getD j defaultPriceRow).price_usd ≠ 0)
    (hv0 : ((sortByDate rows).getD j defaultPriceRow).total_volume = 0)
    (hv1 : ((sortByDate rows).getD (j + 1) defaultPriceRow).total_volume = 0) :
    (∃ r ∈ assetMetrics rows,
        r.date = ((sortByDate rows).getD (j + 1) defaultPriceRow).date) ∧
      ∀ r ∈ assetMetrics rows,
        r.date = ((sortByDate rows).getD (j + 1) defaultPriceRow).date →
          r.volume_change_24h = none := by
  have hsome : (pct_change ((sortByDate rows).map (fun x => x.price_usd))).getD (j + 1)
      none = some
        ((((sortByDate rows).getD (j + 1) defaultPriceRow).price_usd -
            ((sortByDate rows).getD j defaultPriceRow).price_usd) /
          ((sortByDate rows).getD j defaultPriceRow).price_usd * 100) := by
    rw [pct_change_getD_succ _ j (by rw [List.length_map]; exact hj1),
      map_getD_default _ _ defaultPriceRow _ _ (by omega),
      map_getD_default _ _ defaultPriceRow _ _ (by omega), if_neg hpnz]
  have hvnone : (pct_change ((sortByDate rows).map (fun x => x.total_volume))).getD (j + 1)
      none = none := by
    rw [pct_change_getD_succ _ j (by rw [List.length_map]; exact hj1),
      map_getD_default _ _ defaultPriceRow _ _ (by omega), hv0]
    simp
  constructor
  · refine ⟨mkMetricRow (sortByDate rows)
      (pct_change ((sortByDate rows).map (fun x => x.price_usd)))
      (pct_change ((sortByDate rows).map (fun x => x.total_volume))) (j + 1)
      ((((sortByDate rows).getD (j + 1) defaultPriceRow).price_usd -
          ((sortByDate rows).getD j defaultPriceRow).price_usd) /
        ((sortByDate rows).getD j defaultPriceRow).price_usd * 100), ?_, rfl⟩
    rw [assetMetrics]
    exact (mem_assetMetricsSorted _ _).mpr ⟨j + 1, hj1, _, hsome, rfl⟩
  · intro r hr hdate
    rw [assetMetrics] at hr
    obtain ⟨i, hi, v, hs, rfl⟩ := (mem_assetMetricsSorted _ r).mp hr
    have hdate' : ((sortByDate rows).getD i defaultPriceRow).date =
        ((sortByDate rows).getD (j + 1) defaultPriceRow).date := hdate
    rw [List.getD_eq_getElem _ _ hi, List.getD_eq_getElem _ _ hj1] at hdate'
    have him : i < ((sortByDate rows).map (fun r => r.date)).length := by
      rw [List.length_map]; exact hi
    have hjm : j + 1 < ((sortByDate rows).map (fun r => r.date)).length := by
      rw [List.length_map]; exact hj1
    have hgm : ((sortByDate rows).map (fun r => r.date))[i] =
        ((sortByDate rows).map (fun r => r.date))[j + 1] := by
      rw [List.getElem_map, List.getElem_map]
      exact hdate'
    have hij : i = j + 1 := hnd.getElem_inj_iff.mp hgm
    subst hij
    show (pct_change ((sortByDate rows).map (fun x => x.total_volume))).getD (j + 1) none = none
    exact hvnone

/-- Part (c) of C9: with strictly positive prices and volumes no division
by zero occurs — every observation but the first yields a stored row, and
every stored row has a defined (finite) `volume_change_24h` (its
`daily_return` is a total rational by construction). -/
theorem metrics_total_of_positive (rows : List PriceRow)
    (hppos : ∀ y ∈ (sortByDate rows).map (fun r => r.price_usd), 0 < y)
    (hvpos : ∀ y ∈ (sortByDate rows).map (fun r => r.total_volume), 0 < y) :
    (assetMetrics rows).length = (sortByDate rows).length - 1 ∧
      ∀ r ∈ assetMetrics rows, (r.volume_change_24h).isSome = true := by
  have hnz : ∀ y ∈ ((sortByDate rows).map (fun r => r.price_usd)).dropLast, y ≠ 0 :=
    fun y hy => (hppos y ((List.dropLast_sublist _).subset hy)).ne'
  refine ⟨assetMetrics_length rows hnz, ?_⟩
  intro r hr
  rw [assetMetrics, assetMetricsSorted_eq_map _ hnz] at hr
  obtain ⟨j, hjmem, rfl⟩ := List.mem_map.mp hr
  have hjr : j < (sortByDate rows).length - 1 := List.mem_range.mp hjmem
  have hjlt : j < (sortByDate rows).length := by omega
  show ((pct_change ((sortByDate rows).map (fun r => r.total_volume))).getD (j + 1)
      none).isSome = true
  rw [pct_change_getD_succ _ j (by rw [List.length_map]; omega)]
  have hmem : (sortByDate rows).getD j defaultPriceRow ∈ sortByDate rows := by
    rw [List.getD_eq_getElem _ _ hjlt]
    exact List.getElem_mem _
  have hvol : ((sortByDate rows).map (fun r => r.total_volume)).getD j 0 ≠ 0 := by
    rw [map_getD_default _ _ defaultPriceRow _ _ hjlt]
    exact (hvpos _ (List.mem_map_of_mem _ hmem)).ne'
  rw [if_neg hvol]
  rfl

/-- C9: the divisions of the metrics stage are unguarded where the input
contract permits zeroes — a `0/0` price pair silently loses the row of a
non-first observation, a `0/0` volume pair stores the row with a null
`volume_change_24h` — while under strictly positive prices and volumes no
division by zero occurs and every stored row is complete. -/
theorem c9_zero_guard :
    (∀ (rows : List PriceRow) (j : Nat),
        j + 1 < (sortByDate rows).length →
        ((sortByDate rows).map (fun r => r.date)).Nodup →
        ((sortByDate rows).getD j defaultPriceRow).price_usd = 0 →
        ((sortByDate rows).getD (j + 1) defaultPriceRow).price_usd = 0 →
        ∀ r ∈ assetMetrics rows,
          r.date ≠ ((sortByDate rows).getD (j + 1) defaultPriceRow).date) ∧
      (∀ (rows : List PriceRow) (j : Nat),
          j + 1 < (sortByDate rows).length →
          ((sortByDate rows).map (fun r => r.date)).Nodup →
          ((sortByDate rows).getD j defaultPriceRow).price_usd ≠ 0 →
          ((sortByDate rows).getD j defaultPriceRow).total_volume = 0 →
          ((sortByDate rows).getD (j + 1) defaultPriceRow).total_volume = 0 →
          (∃ r ∈ assetMetrics rows,
              r.date = ((sortByDate rows).getD (j + 1) defaultPriceRow).date) ∧
            ∀ r ∈ assetMetrics rows,
              r.date = ((sortByDate rows).getD (j + 1) defaultPriceRow).date →
                r.volume_change_24h = none) ∧
      ∀ rows : List PriceRow,
        (∀ y ∈ (sortByDate rows).map (fun r => r.price_usd), 0 < y) →
        (∀ y ∈ (sortByDate rows).map (fun r => r.total_volume), 0 < y) →
        (assetMetrics rows).length = (sortByDate rows).length - 1 ∧
          ∀ r ∈ assetMetrics rows, (r.volume_change_24h).isSome = true :=
  ⟨fun rows j hj1 hnd hp0 hp1 => no_metric_row_of_zero_prices rows j hj1 hnd hp0 hp1,
    fun rows j hj1 hnd hpnz hv0 hv1 =>
      volume_change_null_of_zero_volumes rows j hj1 hnd hpnz hv0 hv1,
    fun rows hp hv => metrics_total_of_positive rows hp hv⟩

/-- C9 witness: the three parts of the theorem instantiated on concrete
series exhibiting the `0/0` price case, the `0/0` volume case and the
all-positive case. -/
theorem c9_zero_guard_witness :
    (((sortByDate exC9a).getD 1 defaultPriceRow).price_usd = 0 ∧
        ((sortByDate exC9a).getD 2 defaultPriceRow).price_usd = 0 ∧
        ∀ r ∈ assetMetrics exC9a,
          r.date ≠ ((sortByDate exC9a).getD 2 defaultPriceRow).date) ∧
      (((sortByDate exC9b).getD 1 defaultPriceRow).total_volume = 0 ∧
          ((sortByDate exC9b).getD 2 defaultPriceRow).total_volume = 0 ∧
          (∃ r ∈ assetMetrics exC9b,
              r.date = ((sortByDate exC9b).getD 2 defaultPriceRow).date) ∧
            ∀ r ∈ assetMetrics exC9b,
              r.date = ((sortByDate exC9b).getD 2 defaultPriceRow).date →
                r.volume_change_24h = none) ∧
      ((assetMetrics exC9c).length = (sortByDate exC9c).length - 1 ∧
        ∀ r ∈ assetMetrics exC9c, (r.volume_change_24h).isSome = true) := by
  refine ⟨⟨?_, ?_, ?_⟩, ⟨?_, ?_, ?_⟩, ?_⟩
  · norm_num [exC9a, sortByDate, List.insertionSort, List.orderedInsert]
  · norm_num [exC9a, sortByDate, List.insertionSort, List.orderedInsert]
  · exact c9_zero_guard.1 exC9a 1
      (by norm_num [exC9a, sortByDate, List.insertionSort, List.orderedInsert])
      (by norm_num [exC9a, sortByDate, List.insertionSort, List.orderedInsert])
      (by norm_num [exC9a, sortByDate, List.insertionSort, List.orderedInsert])
      (by norm_num [exC9a, sortByDate, List.insertionSort, List.orderedInsert])
  · norm_num [exC9b, sortByDate, List.insertionSort, List.orderedInsert]
  · norm_num [exC9b, sortByDate, List.insertionSort, List.orderedInsert]
  · exact c9_zero_guard.2.1 exC9b 1
      (by norm_num [exC9b, sortByDate, List.insertionSort, List.orderedInsert])
      (by norm_num [exC9b, sortByDate, List.insertionSort, List.orderedInsert])
      (by norm_num [exC9b, sortByDate, List.insertionSort, List.orderedInsert])
      (by norm_num [exC9b, sortByDate, List.insertionSort, List.orderedInsert])
      (by norm_num [exC9b, sortByDate, List.insertionSort, List.orderedInsert])
  · exact c9_zero_guard.2.2 exC9c
      (by norm_num [exC9c, sortByDate, List.insertionSort, List.orderedInsert])
      (by norm_num [exC9c, sortByDate, List.insertionSort, List.orderedInsert])
